import Mathlib

/-!
# delta: the backend registry of an HTTP shadow proxy

A shallow embedding of `server.go` (package `delta`): the `Server` value, its
constructor `NewServer`, the registration calls `AddMasterBackend` / `AddBackend`,
the configuration setters and the two default policy hooks that `NewServer` installs.
The construction of the outgoing requests and the aggregation of the responses belong
to the handler, which is declared outside `server.go`; they are modelled from the
specification and marked as such.

Conventions of the embedding

* A Go pointer that the code tests against `nil` (or that may be `nil` in a zero value)
  is an `Option`; a `nil` map and a `nil` func value are `none`.
* A run-time panic is an `Except.error` carrying a `Fault`.
* A method with a pointer receiver that mutates the server is a function returning the
  new server value.
* A closure that captured the `server` pointer receives the part of the server it reads
  at the time of the call.
* Go leaves the iteration order of `range` over a map unspecified; the order chosen by
  the runtime for one loop is an explicit `RangeOrder` argument.
-/

namespace Delta

/-! ## Data model -/

/-- Run-time panics of the embedded code. -/
inductive Fault where
  | nilMapAssignment
  | nilDereference
  deriving DecidableEq, Repr

/-- Modelled from the spec: the struct `Backend` is declared outside `server.go`. Section 3
of the specification gives its fields (`name`, `host`, `port`, `isMaster`); they are the
four fields that the composite literals of `AddMasterBackend` and `AddBackend` set, with
the types of the values assigned there. -/
structure Backend where
  IsMaster : Bool
  Name : String
  Host : String
  Port : Int
  deriving DecidableEq, Repr

/-- The value of a Go `map[string]*Backend` that has been allocated with `make`:
finitely many entries, at most one per key. Every pointer stored by the code is the
address of a fresh composite literal, so an entry holds the `Backend` itself. -/
abbrev BackendMap := AList (fun _ : String => Backend)

/-- The entries a `range` loop finds in a map value; a `nil` map has none. -/
def rangeEntries : Option BackendMap → List (Sigma fun _ : String => Backend)
  | none => []
  | some m => m.entries

/-- The result of `len(m)`; zero for a `nil` map. -/
def mapLen (backends : Option BackendMap) : Nat := (rangeEntries backends).length

/-- The result of the index expression `m[name]`: the stored backend, or `none` (the
`nil` pointer) when `name` has no entry or the map is `nil`. -/
def mapIndex (backends : Option BackendMap) (name : String) : Option Backend :=
  backends.bind (AList.lookup name)

/-- The order in which one `for key, _ := range m` loop visits the entries of a map:
Go leaves it unspecified, except that every entry is visited exactly once. -/
structure RangeOrder where
  visit : List (Sigma fun _ : String => Backend) → List (Sigma fun _ : String => Backend)
  perm : ∀ l, (visit l).Perm l

/-- Iteration in the order in which the entries are stored. -/
def RangeOrder.stored : RangeOrder := ⟨id, fun _ => List.Perm.refl _⟩

/-- Iteration in the reverse of the stored order. -/
def RangeOrder.reversed : RangeOrder := ⟨List.reverse, fun l => List.reverse_perm l⟩

/-- The type `http.Header`: header names with their values, in order of appearance. -/
abbrev Header := List (String × List String)

/-- The method `Header.Add` on a key in canonical form: append `value` to the values of
`key`. -/
def Header.Add : Header → String → String → Header
  | [], key, value => [(key, [value])]
  | (k, vs) :: rest, key, value =>
    if k = key then (k, vs ++ [value]) :: rest else (k, vs) :: Header.Add rest key value

/-- The method `Header.Get` on a key in canonical form: the first value of `key`, or the
empty string. -/
def Header.Get : Header → String → String
  | [], _ => ""
  | (k, vs) :: rest, key => if k = key then vs.headD "" else Header.Get rest key

/-- The parts of an inbound `*http.Request` that the hooks and the tests read. -/
structure Request where
  Method : String
  Path : String
  Header : Header
  Body : List (Fin 256)
  deriving DecidableEq, Repr

/-- The parts of a `*http.Response` that the tests read. -/
structure HttpResponse where
  StatusCode : Int
  Header : Header
  deriving DecidableEq, Repr

/-- Modelled from the spec: the struct `Response` is declared outside `server.go`.
Section 3 of the specification gives its fields (`backend`, `httpResponse`, `data`,
`err`); `server.go` reads `response.Backend` as a pointer that may be `nil` and the
tests read `HttpResponse` and `Data`. -/
structure Response where
  Backend : Option Backend
  HttpResponse : Option HttpResponse
  Data : List (Fin 256)
  Err : Option String
  deriving DecidableEq, Repr

/-! ## The server and its hooks -/

/-- The type `func(req *http.Request) []string`. The closure may have captured the server;
it is given the server's `Backends` as they are when it is called, and the iteration
order of any `range` over them. -/
abbrev SelectBackendHandler := Option BackendMap → RangeOrder → Request → List String

/-- The type `func(backend string, header *http.Header)`: the effect on the header that the
pointer refers to. -/
abbrev MungeHeaderHandler := String → Header → Header

/-- The value of a `map[string]*Response`: name and response pointer, one entry per name. -/
abbrev ResponseMap := AList (fun _ : String => Option Response)

/-- The type `func(map[string]*Response)`. The hook returns nothing; its effect is what it
hands on to the outside, here the maps delivered so far (the hooks of the tests send the
map into a channel). -/
abbrev BackendFinishedHandler := ResponseMap → List ResponseMap → List ResponseMap

/-- The type `func(responses ...*Response) *Response`: the arguments are pointers, each
possibly `nil`; the call panics or returns a pointer, possibly `nil`. -/
abbrev ResponseHandler := List (Option Response) → Except Fault (Option Response)

/-- The struct `Server`. -/
structure Server where
  Host : String
  Port : Int
  Backends : Option BackendMap
  waitForAllBackends : Bool
  onSelectBackendHandler : Option SelectBackendHandler
  onMungeHeaderHandler : Option MungeHeaderHandler
  onBackendFinishedHandler : Option BackendFinishedHandler
  onResponseHandler : Option ResponseHandler

/-! ## Setters -/

/-- The method `WaitForAllBackends`. -/
def Server.WaitForAllBackends (server : Server) (shouldWait : Bool) : Server :=
  { server with waitForAllBackends := shouldWait }

/-- The method `OnSelectBackend`. -/
def Server.OnSelectBackend (server : Server) (handler : Option SelectBackendHandler) :
    Server :=
  { server with onSelectBackendHandler := handler }

/-- The method `OnMungeHeader`. -/
def Server.OnMungeHeader (server : Server) (handler : Option MungeHeaderHandler) : Server :=
  { server with onMungeHeaderHandler := handler }

/-- The method `OnBackendFinished`. -/
def Server.OnBackendFinished (server : Server) (handler : Option BackendFinishedHandler) :
    Server :=
  { server with onBackendFinishedHandler := handler }

/-- The method `OnResponse`. -/
def Server.OnResponse (server : Server) (handler : Option ResponseHandler) : Server :=
  { server with onResponseHandler := handler }

/-! ## Registration -/

/-- The assignment `server.Backends[name] = backend`: it panics on a `nil` map and
otherwise inserts, replacing any entry already stored under `name`. -/
def Server.setBackend (server : Server) (name : String) (backend : Backend) :
    Except Fault Server :=
  match server.Backends with
  | none => .error .nilMapAssignment
  | some m => .ok { server with Backends := some (m.insert name backend) }

/-- The method `AddMasterBackend`. -/
def Server.AddMasterBackend (server : Server) (name host : String) (port : Int) :
    Except Fault Server :=
  server.setBackend name { IsMaster := true, Name := name, Host := host, Port := port }

/-- The method `AddBackend`. -/
def Server.AddBackend (server : Server) (name host : String) (port : Int) :
    Except Fault Server :=
  server.setBackend name { IsMaster := false, Name := name, Host := host, Port := port }

/-! ## Construction and default hooks -/

/-- The closure that `NewServer` passes to `OnSelectBackend`: it appends every key of
`server.Backends` to an initially empty slice, in the order of the `range` loop. -/
def defaultOnSelectBackend : SelectBackendHandler := fun backends order _req =>
  (order.visit (rangeEntries backends)).foldl (fun acc entry => acc ++ [entry.1]) []

/-- The condition `response.Backend != nil && response.Backend.IsMaster`. -/
def isMasterResponse (response : Response) : Bool :=
  match response.Backend with
  | none => false
  | some backend => backend.IsMaster

/-- The closure that `NewServer` passes to `OnResponse`: the first response, in argument
order, that satisfies the condition; `nil` when the loop ends without one. Reading
`response.Backend` through a `nil` response panics. -/
def defaultOnResponse : ResponseHandler
  | [] => .ok none
  | none :: _ => .error .nilDereference
  | some response :: rest =>
    if isMasterResponse response then .ok (some response) else defaultOnResponse rest

/-- The function `NewServer`: the composite literal sets `Host` and `Port` and leaves the
other fields at their zero values; then the map is allocated and the two default hooks
are installed through the setters. -/
def NewServer (host : String) (port : Int) : Server :=
  let server : Server :=
    { Host := host, Port := port, Backends := none, waitForAllBackends := false,
      onSelectBackendHandler := none, onMungeHeaderHandler := none,
      onBackendFinishedHandler := none, onResponseHandler := none }
  let server : Server := { server with Backends := some ∅ }
  let server := server.OnSelectBackend (some defaultOnSelectBackend)
  let server := server.OnResponse (some defaultOnResponse)
  server

/-- A call of the installed selection hook on a server: the closure sees the server's
current `Backends`. Calling a `nil` func value panics. -/
def Server.selectBackends (server : Server) (order : RangeOrder) (req : Request) :
    Except Fault (List String) :=
  match server.onSelectBackendHandler with
  | none => .error .nilDereference
  | some handler => .ok (handler server.Backends order req)

/-- A call of the installed response hook on a server. Calling a `nil` func value panics. -/
def Server.pickResponse (server : Server) (responses : List (Option Response)) :
    Except Fault (Option Response) :=
  match server.onResponseHandler with
  | none => .error .nilDereference
  | some handler => handler responses

/-! ## Sequences of calls -/

/-- A registration call with its arguments. -/
inductive RegistrationCall where
  | addMasterBackend (name host : String) (port : Int)
  | addBackend (name host : String) (port : Int)
  deriving DecidableEq, Repr

/-- One registration call made on a server. -/
def Server.register (server : Server) : RegistrationCall → Except Fault Server
  | .addMasterBackend name host port => server.AddMasterBackend name host port
  | .addBackend name host port => server.AddBackend name host port

/-- The registration calls of a list made one after the other; a panic ends the run. -/
def Server.registerAll (server : Server) : List RegistrationCall → Except Fault Server
  | [] => .ok server
  | call :: calls =>
    match server.register call with
    | .error fault => .error fault
    | .ok next => next.registerAll calls

/-- A call of one of the five configuration setters with its argument. -/
inductive ConfigCall where
  | onSelectBackend (handler : Option SelectBackendHandler)
  | onMungeHeader (handler : Option MungeHeaderHandler)
  | onBackendFinished (handler : Option BackendFinishedHandler)
  | onResponse (handler : Option ResponseHandler)
  | waitForAllBackends (shouldWait : Bool)

/-- One setter call made on a server. -/
def Server.configure (server : Server) : ConfigCall → Server
  | .onSelectBackend handler => server.OnSelectBackend handler
  | .onMungeHeader handler => server.OnMungeHeader handler
  | .onBackendFinished handler => server.OnBackendFinished handler
  | .onResponse handler => server.OnResponse handler
  | .waitForAllBackends shouldWait => server.WaitForAllBackends shouldWait

/-- The setter calls of a list made one after the other. -/
def Server.configureAll (server : Server) (calls : List ConfigCall) : Server :=
  calls.foldl Server.configure server

/-- A call of one of the seven configuration methods of the server. -/
inductive ApiCall where
  | registration (call : RegistrationCall)
  | setter (call : ConfigCall)

/-- One method call made on a server. -/
def Server.call (server : Server) : ApiCall → Except Fault Server
  | .registration call => server.register call
  | .setter call => .ok (server.configure call)

/-- The method calls of a list made one after the other; a panic ends the run. -/
def Server.callAll (server : Server) : List ApiCall → Except Fault Server
  | [] => .ok server
  | call :: calls =>
    match server.call call with
    | .error fault => .error fault
    | .ok next => next.callAll calls

/-- Two servers with the same host, port and registered backends. -/
def Server.sameRegistry (a b : Server) : Prop :=
  a.Host = b.Host ∧ a.Port = b.Port ∧ a.Backends = b.Backends

/-- The number of registered backends whose `IsMaster` is set. -/
def masterCount (backends : Option BackendMap) : Nat :=
  ((rangeEntries backends).filter fun entry => entry.2.IsMaster).length

/-! ## Hooks of the tests -/

/-- The closure that the tests pass to `OnMungeHeader`:
`header.Add("Delta-Backend", backend)`. -/
def tagBackend : MungeHeaderHandler := fun backend header =>
  Header.Add header "Delta-Backend" backend

/-- The closure that `TestRequestBody_WaitForAllBackends` passes to `OnResponse`: the first
response whose backend is named "testing". It reads `r.Backend.Name` without a `nil`
check. -/
def testingOnResponse : ResponseHandler
  | [] => .ok none
  | none :: _ => .error .nilDereference
  | some r :: rest =>
    match r.Backend with
    | none => .error .nilDereference
    | some backend => if backend.Name = "testing" then .ok (some r) else testingOnResponse rest

/-! ## Request replication, modelled from the specification -/

/-- Modelled from the spec: the handler (`NewHandler`, `ServeHTTP`) is declared outside
`server.go`. The header sets it works on are reached through pointers (`*http.Header`) and
the munge hook changes them in place, so they live in a store: a pointer is an index, the
cell at that index is the header set it refers to. -/
abbrev HeaderStore := List Header

/-- Modelled from the spec: the deep copy of a header set (section 4.2, "a deep copy of the
inbound header set"): a new cell with the names and values of the cell `source`. -/
def copyHeader (store : HeaderStore) (source : Nat) : HeaderStore × Nat :=
  (store ++ [(store[source]?).getD []], store.length)

/-- Modelled from the spec: the header set that the installed munge hook, called for `name`,
leaves behind its pointer; without a hook the header set stays as it is (section 3,
"Default: no-op"). -/
def Server.mungedHeader (server : Server) (name : String) (header : Header) : Header :=
  match server.onMungeHeaderHandler with
  | none => header
  | some handler => handler name header

/-- Modelled from the spec: the call `mungeHeader(backendName, header)` of section 4.2 with
a pointer into the store: the cell of the pointer is changed in place. -/
def Server.mungeHeader (server : Server) (name : String) (store : HeaderStore)
    (header : Nat) : HeaderStore :=
  match store[header]? with
  | none => store
  | some current => store.set header (server.mungedHeader name current)

/-- Modelled from the spec: the inbound request as the handler holds it after section 4.2:
method, path, the pointer to its header set, and the body read whole into a buffer. -/
structure InboundRequest where
  Method : String
  Path : String
  Header : Nat
  Body : List (Fin 256)
  deriving DecidableEq, Repr

/-- Modelled from the spec: the request issued to one backend (section 6, "Outbound per
Backend"), with the name it was selected under and the pointer to its own header set. -/
structure OutboundRequest where
  Name : String
  Backend : Backend
  Method : String
  Path : String
  Header : Nat
  Body : List (Fin 256)
  deriving DecidableEq, Repr

/-- Modelled from the spec: the outgoing request for one selected name (section 4.2): same
method and path, a deep copy of the inbound header set passed through the munge hook, and
the buffered body. A name without registered backend gets no request (section 4.3). -/
def Server.newOutboundRequest (server : Server) (inbound : InboundRequest)
    (store : HeaderStore) (name : String) : HeaderStore × Option OutboundRequest :=
  match mapIndex server.Backends name with
  | none => (store, none)
  | some backend =>
    let copied := copyHeader store inbound.Header
    (server.mungeHeader name copied.1 copied.2,
      some { Name := name, Backend := backend, Method := inbound.Method,
             Path := inbound.Path, Header := copied.2, Body := inbound.Body })

/-- Modelled from the spec: the outgoing requests for the selected names, built one after
the other on the same store. -/
def Server.replicate (server : Server) (inbound : InboundRequest) :
    HeaderStore → List String → HeaderStore × List OutboundRequest
  | store, [] => (store, [])
  | store, name :: names =>
    let built := server.newOutboundRequest inbound store name
    let rest := Server.replicate server inbound built.1 names
    match built.2 with
    | none => rest
    | some out => (rest.1, out :: rest.2)

/-! ## Response aggregation, modelled from the specification -/

/-- Modelled from the spec: the handler (`NewHandler`, `ServeHTTP`) is declared outside
`server.go`. This is the per-request state of its aggregation step (section 4.4 and the
third design note of section 9): the responses completed so far, in order of arrival, and
the client-facing response once one has been chosen. -/
structure Aggregation where
  completed : List Response
  client : Option Response
  deriving DecidableEq, Repr

/-- Modelled from the spec: the aggregation before any round trip has completed. -/
def Aggregation.start : Aggregation := { completed := [], client := none }

/-- Modelled from the spec: the arrival of one completed response, `selected` being the
number of backends the request was dispatched to. The response joins the collection. A
client-facing response that has been chosen is final (section 5). Otherwise the response
hook is invoked with the responses available and what it returns, if anything, becomes the
client-facing response (section 4.4); in waiting mode no choice is made before all selected
backends have completed (section 4.5). -/
def Server.receive (server : Server) (selected : Nat) (state : Aggregation)
    (response : Response) : Except Fault Aggregation :=
  let completed := state.completed ++ [response]
  if state.client.isSome then
    .ok { completed := completed, client := state.client }
  else if server.waitForAllBackends && decide (completed.length < selected) then
    .ok { completed := completed, client := none }
  else
    match server.pickResponse (completed.map some) with
    | .error fault => .error fault
    | .ok choice => .ok { completed := completed, client := choice }

/-- Modelled from the spec: the responses of the selected backends taken in, one after the
other, in the order in which the round trips complete (section 4.3). -/
def Server.aggregate (server : Server) (selected : Nat) :
    Aggregation → List Response → Except Fault Aggregation
  | state, [] => .ok state
  | state, response :: later =>
    match server.receive selected state response with
    | .error fault => .error fault
    | .ok next => Server.aggregate server selected next later

/-! ## Sample data, after the set-up of the tests -/

/-- The master backend of the tests. -/
def productionBackend : Backend :=
  { IsMaster := true, Name := "production", Host := "localhost", Port := 8080 }

/-- The shadow backend of the tests. -/
def testingBackend : Backend :=
  { IsMaster := false, Name := "testing", Host := "localhost", Port := 8081 }

/-- The backend map after `AddMasterBackend("production", ...)` and
`AddBackend("testing", ...)`. -/
def sampleBackends : BackendMap :=
  (AList.insert "production" productionBackend ∅).insert "testing" testingBackend

/-- The server of the tests before any hook is replaced. -/
def sampleServer : Server :=
  { NewServer "0.0.0.0" 8000 with Backends := some sampleBackends }

/-- A successful response of the master backend. -/
def productionResponse : Response :=
  { Backend := some productionBackend,
    HttpResponse := some { StatusCode := 200, Header := [("Delta-Backend", ["production"])] },
    Data := [100, 101], Err := none }

/-- A successful response of the shadow backend. -/
def testingResponse : Response :=
  { Backend := some testingBackend,
    HttpResponse := some { StatusCode := 200, Header := [("Delta-Backend", ["testing"])] },
    Data := [100, 101], Err := none }

/-- A failed round trip recorded without a backend. -/
def failedResponse : Response :=
  { Backend := none, HttpResponse := none, Data := [], Err := some "connection refused" }

/-- A `GET /` request without headers or body. -/
def sampleRequest : Request := { Method := "GET", Path := "/", Header := [], Body := [] }

/-- The server of the tests with the hook that adds `Delta-Backend`. -/
def taggingServer : Server := sampleServer.OnMungeHeader (some tagBackend)

/-- The server of `TestRequestBody_WaitForAllBackends`: waiting mode on, then the response
hook that prefers "testing". -/
def waitingServer : Server :=
  (taggingServer.WaitForAllBackends true).OnResponse (some testingOnResponse)

/-- The header set of the request of the tests. -/
def sampleHeader : Header := [("Delta-Test-Enabled", ["1"])]

/-- A store that holds the inbound header set only. -/
def sampleStore : HeaderStore := [sampleHeader]

/-- The inbound `POST /` of the tests, its header set in cell 0. -/
def sampleInbound : InboundRequest :=
  { Method := "POST", Path := "/", Header := 0, Body := [100, 101] }

/-! ## Lemmas on the default response hook -/

theorem defaultOnResponse_eq_find (responses : List Response) :
    defaultOnResponse (responses.map some) = .ok (responses.find? isMasterResponse) := by
  induction responses with
  | nil => rfl
  | cons r rest ih =>
    by_cases h : isMasterResponse r = true
    · simp [defaultOnResponse, List.find?_cons, h]
    · simp [defaultOnResponse, List.find?_cons, h, ih]

theorem find_of_filter_eq_singleton {α : Type} (p : α → Bool) (l : List α) (a : α)
    (h : l.filter p = [a]) : l.find? p = some a := by
  induction l with
  | nil => simp at h
  | cons x xs ih =>
    by_cases hx : p x = true
    · simp [List.filter_cons, hx] at h
      obtain ⟨rfl, _⟩ := h
      simp [List.find?_cons, hx]
    · simp [List.filter_cons, hx] at h
      simp [List.find?_cons, hx, ih h]

theorem pickResponse_of_default (server : Server)
    (h : server.onResponseHandler = some defaultOnResponse) (responses : List Response) :
    server.pickResponse (responses.map some) = .ok (responses.find? isMasterResponse) := by
  unfold Server.pickResponse
  rw [h]
  exact defaultOnResponse_eq_find responses

theorem newServer_onResponseHandler (host : String) (port : Int) :
    (NewServer host port).onResponseHandler = some defaultOnResponse := rfl

/-! ## Lemmas on the default selection hook -/

theorem foldl_append_singleton_eq_map {α β : Type} (f : α → β) (l : List α) (init : List β) :
    l.foldl (fun acc x => acc ++ [f x]) init = init ++ l.map f := by
  induction l generalizing init with
  | nil => simp
  | cons x xs ih => simp [ih]

theorem defaultOnSelectBackend_eq_map (backends : Option BackendMap) (order : RangeOrder)
    (req : Request) :
    defaultOnSelectBackend backends order req
      = (order.visit (rangeEntries backends)).map Sigma.fst := by
  unfold defaultOnSelectBackend
  rw [foldl_append_singleton_eq_map]
  rfl

theorem defaultOnSelectBackend_perm_keys (backends : Option BackendMap) (order : RangeOrder)
    (req : Request) :
    (defaultOnSelectBackend backends order req).Perm ((rangeEntries backends).map Sigma.fst) := by
  rw [defaultOnSelectBackend_eq_map]
  exact (order.perm _).map _

theorem rangeEntries_keys_nodup (backends : Option BackendMap) :
    ((rangeEntries backends).map Sigma.fst).Nodup := by
  cases backends with
  | none => exact List.nodup_nil
  | some m => exact m.keys_nodup

theorem mem_rangeEntries_keys (backends : Option BackendMap) (name : String) :
    name ∈ (rangeEntries backends).map Sigma.fst ↔ (mapIndex backends name).isSome = true := by
  cases backends with
  | none => simp [rangeEntries, mapIndex]
  | some m =>
    have h : name ∈ m.keys ↔ ((AList.lookup name m).isSome = true) := by
      rw [AList.lookup_isSome, AList.mem_keys]
    simpa [rangeEntries, mapIndex, AList.keys, List.keys] using h

theorem defaultOnSelectBackend_spec (backends : Option BackendMap) (order : RangeOrder)
    (req : Request) :
    (defaultOnSelectBackend backends order req).Nodup ∧
    (∀ name, name ∈ defaultOnSelectBackend backends order req ↔
      (mapIndex backends name).isSome = true) ∧
    (defaultOnSelectBackend backends order req).length = mapLen backends := by
  have hp := defaultOnSelectBackend_perm_keys backends order req
  refine ⟨hp.nodup_iff.mpr (rangeEntries_keys_nodup backends), ?_, ?_⟩
  · intro name
    rw [hp.mem_iff, mem_rangeEntries_keys]
  · rw [hp.length_eq, List.length_map, mapLen]

theorem newServer_onSelectBackendHandler (host : String) (port : Int) :
    (NewServer host port).onSelectBackendHandler = some defaultOnSelectBackend := rfl

theorem selectBackends_of_default (server : Server)
    (h : server.onSelectBackendHandler = some defaultOnSelectBackend) (order : RangeOrder)
    (req : Request) :
    server.selectBackends order req = .ok (defaultOnSelectBackend server.Backends order req) := by
  unfold Server.selectBackends
  rw [h]

/-! ## Lemmas on sequences of setter calls -/

theorem configureAll_append (server : Server) (first second : List ConfigCall) :
    server.configureAll (first ++ second) = (server.configureAll first).configureAll second := by
  simp [Server.configureAll, List.foldl_append]

theorem configureAll_preserves {α : Type} (f : Server → α) (calls : List ConfigCall)
    (h : ∀ c ∈ calls, ∀ s : Server, f (s.configure c) = f s) (server : Server) :
    f (server.configureAll calls) = f server := by
  induction calls generalizing server with
  | nil => rfl
  | cons c rest ih =>
    have hrest : ∀ d ∈ rest, ∀ s : Server, f (s.configure d) = f s :=
      fun d hd => h d (List.mem_cons_of_mem c hd)
    show f ((server.configure c).configureAll rest) = f server
    rw [ih hrest, h c (List.mem_cons_self c rest)]

theorem configure_sameRegistry (c : ConfigCall) (s : Server) :
    (s.configure c).Host = s.Host ∧ (s.configure c).Port = s.Port ∧
      (s.configure c).Backends = s.Backends := by
  cases c <;> exact ⟨rfl, rfl, rfl⟩

theorem configureAll_last (f : Server → Prop) (before after : List ConfigCall) (c : ConfigCall)
    (hset : ∀ s : Server, f (s.configure c))
    (hkeep : ∀ d ∈ after, ∀ s : Server, f s → f (s.configure d)) (server : Server) :
    f (server.configureAll (before ++ c :: after)) := by
  rw [configureAll_append]
  generalize server.configureAll before = mid
  show f ((mid.configure c).configureAll after)
  have hmid := hset mid
  generalize mid.configure c = start at hmid
  induction after generalizing start with
  | nil => exact hmid
  | cons d rest ih =>
    exact ih (fun e he => hkeep e (List.mem_cons_of_mem d he)) _
      (hkeep d (List.mem_cons_self d rest) start hmid)

/-! ## Lemmas on registration -/

theorem mapLen_insert (m : BackendMap) (name : String) (backend : Backend) :
    mapLen (some (m.insert name backend))
      = if (mapIndex (some m) name).isSome = true then mapLen (some m)
        else mapLen (some m) + 1 := by
  have hlen : ∀ a : BackendMap, mapLen (some a) = a.keys.length := by
    intro a
    simp [mapLen, rangeEntries, AList.keys, List.keys]
  have hmem : (mapIndex (some m) name).isSome = true ↔ name ∈ m.keys := by
    simp only [mapIndex, Option.some_bind]
    rw [AList.lookup_isSome, AList.mem_keys]
  rw [hlen, hlen, AList.keys_insert]
  by_cases h : name ∈ m.keys
  · have hpos : 0 < m.keys.length := List.length_pos_of_mem h
    rw [if_pos (hmem.mpr h), List.length_cons, List.length_erase_of_mem h]
    omega
  · rw [if_neg (fun hc => h (hmem.mp hc)), List.length_cons, List.erase_of_not_mem h]

theorem setBackend_spec (server : Server) (m : BackendMap) (hmap : server.Backends = some m)
    (name : String) (backend : Backend) :
    ∃ next, server.setBackend name backend = .ok next ∧
      next.Backends = some (m.insert name backend) ∧
      mapIndex next.Backends name = some backend ∧
      (∀ other, other ≠ name → mapIndex next.Backends other = mapIndex server.Backends other) ∧
      mapLen next.Backends
        = (if (mapIndex server.Backends name).isSome = true then mapLen server.Backends
           else mapLen server.Backends + 1) ∧
      next.Host = server.Host ∧ next.Port = server.Port ∧
      next.waitForAllBackends = server.waitForAllBackends ∧
      next.onSelectBackendHandler = server.onSelectBackendHandler ∧
      next.onMungeHeaderHandler = server.onMungeHeaderHandler ∧
      next.onBackendFinishedHandler = server.onBackendFinishedHandler ∧
      next.onResponseHandler = server.onResponseHandler := by
  refine ⟨{ server with Backends := some (m.insert name backend) }, ?_, rfl, ?_, ?_, ?_,
    rfl, rfl, rfl, rfl, rfl, rfl, rfl⟩
  · simp [Server.setBackend, hmap]
  · simp [mapIndex, AList.lookup_insert]
  · intro other hne
    simp [mapIndex, hmap, AList.lookup_insert_ne hne]
  · rw [hmap]
    exact mapLen_insert m name backend

theorem setBackend_ok (server next : Server) (name : String) (backend : Backend)
    (h : server.setBackend name backend = .ok next) :
    ∃ m, server.Backends = some m := by
  cases hb : server.Backends with
  | none => simp [Server.setBackend, hb] at h
  | some m => exact ⟨m, rfl⟩

theorem setBackend_selected (server next : Server) (name : String) (backend : Backend)
    (hdef : server.onSelectBackendHandler = some defaultOnSelectBackend)
    (h : server.setBackend name backend = .ok next) (order : RangeOrder) (req : Request) :
    ∃ later, next.selectBackends order req = .ok later ∧ name ∈ later := by
  obtain ⟨m, hm⟩ := setBackend_ok server next name backend h
  obtain ⟨next2, h2, _, hidx, _, _, _, _, _, hsel, _⟩ := setBackend_spec server m hm name backend
  rw [h] at h2
  cases h2
  refine ⟨_, selectBackends_of_default next (hsel.trans hdef) order req, ?_⟩
  rw [(defaultOnSelectBackend_spec next.Backends order req).2.1, hidx]
  rfl

theorem registerAll_ok (calls : List RegistrationCall) (server : Server) (m : BackendMap)
    (hmap : server.Backends = some m) :
    ∃ final n, server.registerAll calls = .ok final ∧ final.Backends = some n := by
  induction calls generalizing server m with
  | nil => exact ⟨server, m, rfl, hmap⟩
  | cons call calls ih =>
    have hstep : ∃ next, server.register call = .ok next ∧ ∃ n, next.Backends = some n := by
      cases call with
      | addMasterBackend name host port =>
        obtain ⟨next, h1, h2, _⟩ := setBackend_spec server m hmap name
          { IsMaster := true, Name := name, Host := host, Port := port }
        exact ⟨next, h1, _, h2⟩
      | addBackend name host port =>
        obtain ⟨next, h1, h2, _⟩ := setBackend_spec server m hmap name
          { IsMaster := false, Name := name, Host := host, Port := port }
        exact ⟨next, h1, _, h2⟩
    obtain ⟨next, hnext, n, hn⟩ := hstep
    obtain ⟨final, k, hfinal, hk⟩ := ih next n hn
    exact ⟨final, k, by simp [Server.registerAll, hnext, hfinal], hk⟩

theorem callAll_allocated (calls : List ApiCall) (server : Server) (m : BackendMap)
    (hmap : server.Backends = some m) :
    ∃ final n, server.callAll calls = .ok final ∧ final.Backends = some n := by
  induction calls generalizing server m with
  | nil => exact ⟨server, m, rfl, hmap⟩
  | cons call calls ih =>
    have hstep : ∃ next, server.call call = .ok next ∧ ∃ n, next.Backends = some n := by
      cases call with
      | registration c =>
        obtain ⟨next, n, h1, h2⟩ := registerAll_ok [c] server m hmap
        refine ⟨next, ?_, n, h2⟩
        cases hc : server.register c with
        | error fault => simp [Server.registerAll, hc] at h1
        | ok mid =>
          simp only [Server.registerAll, hc, Except.ok.injEq] at h1
          simp [Server.call, hc, h1]
      | setter c =>
        exact ⟨server.configure c, rfl, m, (configure_sameRegistry c server).2.2.trans hmap⟩
    obtain ⟨next, hnext, n, hn⟩ := hstep
    obtain ⟨final, k, hfinal, hk⟩ := ih next n hn
    exact ⟨final, k, by simp [Server.callAll, hnext, hfinal], hk⟩

theorem newServer_callAll_allocated (host : String) (port : Int) (calls : List ApiCall) :
    ∃ final n, (NewServer host port).callAll calls = .ok final ∧ final.Backends = some n :=
  callAll_allocated calls (NewServer host port) ∅ rfl

theorem sampleServer_registered :
    (NewServer "0.0.0.0" 8000).registerAll
        [.addMasterBackend "production" "localhost" 8080,
         .addBackend "testing" "localhost" 8081] = .ok sampleServer := rfl

/-! ## Lemmas on request replication -/

theorem newOutboundRequest_unregistered (server : Server) (inbound : InboundRequest)
    (store : HeaderStore) (name : String) (hreg : mapIndex server.Backends name = none) :
    server.newOutboundRequest inbound store name = (store, none) := by
  simp [Server.newOutboundRequest, hreg]

theorem newOutboundRequest_registered (server : Server) (inbound : InboundRequest)
    (store : HeaderStore) (name : String) (backend : Backend) (header : Header)
    (hreg : mapIndex server.Backends name = some backend)
    (hs : store[inbound.Header]? = some header) :
    server.newOutboundRequest inbound store name
      = (store ++ [server.mungedHeader name header],
         some { Name := name, Backend := backend, Method := inbound.Method,
                Path := inbound.Path, Header := store.length, Body := inbound.Body }) := by
  simp [Server.newOutboundRequest, hreg, copyHeader, Server.mungeHeader, hs]

theorem replicate_spec (server : Server) (inbound : InboundRequest) (header : Header)
    (names : List String) (store : HeaderStore)
    (hs : store[inbound.Header]? = some header) :
    store.length ≤ (server.replicate inbound store names).1.length ∧
    (∀ p, p < store.length → (server.replicate inbound store names).1[p]? = store[p]?) ∧
    (server.replicate inbound store names).2.map OutboundRequest.Name
      = names.filter (fun name => (mapIndex server.Backends name).isSome) ∧
    (∀ out ∈ (server.replicate inbound store names).2,
      mapIndex server.Backends out.Name = some out.Backend ∧
      out.Method = inbound.Method ∧ out.Path = inbound.Path ∧ out.Body = inbound.Body ∧
      store.length ≤ out.Header ∧
      (server.replicate inbound store names).1[out.Header]?
        = some (server.mungedHeader out.Name header)) ∧
    ((server.replicate inbound store names).2.map OutboundRequest.Header).Nodup := by
  induction names generalizing store with
  | nil => simp [Server.replicate]
  | cons name names ih =>
    cases hreg : mapIndex server.Backends name with
    | none =>
      have hstep : server.replicate inbound store (name :: names)
          = server.replicate inbound store names := by
        simp [Server.replicate, newOutboundRequest_unregistered server inbound store name hreg]
      rw [hstep]
      obtain ⟨h1, h2, h3, h4, h5⟩ := ih store hs
      refine ⟨h1, h2, ?_, h4, h5⟩
      rw [h3, List.filter_cons]
      simp [hreg]
    | some backend =>
      have hlt : inbound.Header < store.length := (List.getElem?_eq_some_iff.mp hs).1
      have hs1 : (store ++ [server.mungedHeader name header])[inbound.Header]? = some header := by
        rw [List.getElem?_append_left hlt, hs]
      have hstep : server.replicate inbound store (name :: names)
          = ((server.replicate inbound (store ++ [server.mungedHeader name header]) names).1,
             { Name := name, Backend := backend, Method := inbound.Method,
               Path := inbound.Path, Header := store.length, Body := inbound.Body }
             :: (server.replicate inbound (store ++ [server.mungedHeader name header])
                  names).2) := by
        simp [Server.replicate,
          newOutboundRequest_registered server inbound store name backend header hreg hs]
      rw [hstep]
      obtain ⟨h1, h2, h3, h4, h5⟩ := ih (store ++ [server.mungedHeader name header]) hs1
      have hlen : (store ++ [server.mungedHeader name header]).length = store.length + 1 := by
        simp
      rw [hlen] at h1 h2 h4
      refine ⟨by simp only; omega, ?_, ?_, ?_, ?_⟩
      · intro p hp
        simp only
        rw [h2 p (by omega), List.getElem?_append_left hp]
      · simp only [List.map_cons, List.filter_cons, hreg, Option.isSome_some, if_true, h3]
      · intro out hout
        simp only [List.mem_cons] at hout
        simp only
        rcases hout with rfl | hout
        · refine ⟨hreg, rfl, rfl, rfl, le_refl _, ?_⟩
          rw [h2 store.length (by omega), List.getElem?_concat_length]
        · obtain ⟨g1, g2, g3, g4, g5, g6⟩ := h4 out hout
          exact ⟨g1, g2, g3, g4, by omega, g6⟩
      · simp only [List.map_cons, List.nodup_cons]
        refine ⟨?_, h5⟩
        intro hmem
        obtain ⟨out, hout, hhead⟩ := List.mem_map.mp hmem
        have := (h4 out hout).2.2.2.2.1
        omega

/-! ## Lemmas on response aggregation -/

theorem aggregate_append (server : Server) (selected : Nat) (first second : List Response)
    (state mid : Aggregation) (h : server.aggregate selected state first = .ok mid) :
    server.aggregate selected state (first ++ second) = server.aggregate selected mid second := by
  induction first generalizing state with
  | nil =>
    simp only [Server.aggregate, Except.ok.injEq] at h
    rw [List.nil_append, h]
  | cons r rest ih =>
    cases hstep : server.receive selected state r with
    | error fault => simp [Server.aggregate, hstep] at h
    | ok next =>
      simp only [Server.aggregate, hstep] at h
      simp only [List.cons_append, Server.aggregate, hstep]
      exact ih next h

theorem aggregate_waiting (server : Server) (hwait : server.waitForAllBackends = true)
    (selected : Nat) (seen arriving : List Response)
    (hshort : (seen ++ arriving).length < selected) :
    server.aggregate selected { completed := seen, client := none } arriving
      = .ok { completed := seen ++ arriving, client := none } := by
  induction arriving generalizing seen with
  | nil => simp [Server.aggregate]
  | cons r rest ih =>
    have hlen : seen.length + 1 < selected := by
      simp only [List.length_append, List.length_cons] at hshort
      omega
    have hstep : server.receive selected { completed := seen, client := none } r
        = .ok { completed := seen ++ [r], client := none } := by
      simp [Server.receive, hwait, hlen]
    simp only [Server.aggregate, hstep]
    have hrest := ih (seen ++ [r]) (by simpa using hshort)
    simpa using hrest

theorem receive_last (server : Server) (seen : List Response) (last : Response) :
    server.receive (seen.length + 1) { completed := seen, client := none } last
      = match server.pickResponse ((seen ++ [last]).map some) with
        | .error fault => .error fault
        | .ok choice => .ok { completed := seen ++ [last], client := choice } := by
  simp [Server.receive]

theorem testingOnResponse_first (before after : List Response) (testing : Response)
    (backend : Backend) (hb : testing.Backend = some backend) (hname : backend.Name = "testing")
    (hbefore : ∀ r ∈ before, ∃ b, r.Backend = some b ∧ b.Name ≠ "testing") :
    testingOnResponse ((before ++ testing :: after).map some) = .ok (some testing) := by
  induction before with
  | nil => simp [testingOnResponse, hb, hname]
  | cons r rest ih =>
    obtain ⟨b, hrb, hne⟩ := hbefore r (List.mem_cons_self r rest)
    have hrest := ih (fun x hx => hbefore x (List.mem_cons_of_mem r hx))
    simp only [List.cons_append, List.map_cons, testingOnResponse, hrb, hne, if_false]
    exact hrest

/-! ## The default response hook -/

/-- C1. Default master precedence: on a server that still has the response hook installed
by `NewServer`, if exactly one of the (non-nil) responses has a non-nil `Backend` with
`IsMaster` set, then for every arrangement of the responses the hook returns that
response. -/
theorem default_master_precedence (server : Server) (host : String) (port : Int)
    (hkept : server.onResponseHandler = (NewServer host port).onResponseHandler)
    (responses : List Response) (master : Response)
    (hone : responses.filter isMasterResponse = [master])
    (shuffled : List Response) (hperm : shuffled.Perm responses) :
    server.pickResponse (shuffled.map some) = .ok (some master) := by
  rw [pickResponse_of_default server (hkept.trans (newServer_onResponseHandler host port))]
  have hfilter : shuffled.filter isMasterResponse = [master] := by
    have hp := hperm.filter isMasterResponse
    rw [hone] at hp
    exact List.perm_singleton.mp hp
  rw [find_of_filter_eq_singleton _ _ _ hfilter]

/-- The master's response is returned when it arrives last, after a shadow response and a
failed one, and also when it arrives first. -/
theorem default_master_precedence_witness :
    sampleServer.onResponseHandler = (NewServer "0.0.0.0" 8000).onResponseHandler ∧
    [testingResponse, failedResponse, productionResponse].filter isMasterResponse
      = [productionResponse] ∧
    [productionResponse, testingResponse, failedResponse].Perm
      [testingResponse, failedResponse, productionResponse] ∧
    sampleServer.pickResponse
        ([productionResponse, testingResponse, failedResponse].map some)
      = .ok (some productionResponse) :=
  ⟨rfl, rfl, @List.perm_append_comm _ [productionResponse] [testingResponse, failedResponse],
    default_master_precedence sampleServer "0.0.0.0" 8000 rfl
      [testingResponse, failedResponse, productionResponse] productionResponse rfl
      [productionResponse, testingResponse, failedResponse]
      (@List.perm_append_comm _ [productionResponse] [testingResponse, failedResponse])⟩

/-- C2. The default response hook on a list of non-nil responses never panics; it returns
`nil` exactly when no response has a non-nil `Backend` with `IsMaster` set; and it returns
a response `r` exactly when `r` stands in the list with the condition true for it and
false for every response before it, so the result is the first such element of the list,
as it is. -/
theorem default_response_hook_first_master (host : String) (port : Int)
    (responses : List Response) :
    (∃ result, (NewServer host port).pickResponse (responses.map some) = .ok result) ∧
    ((NewServer host port).pickResponse (responses.map some) = .ok none ↔
      ∀ r ∈ responses, isMasterResponse r = false) ∧
    (∀ r, (NewServer host port).pickResponse (responses.map some) = .ok (some r) ↔
      isMasterResponse r = true ∧
      ∃ before after, responses = before ++ r :: after ∧
        ∀ x ∈ before, isMasterResponse x = false) := by
  rw [pickResponse_of_default _ (newServer_onResponseHandler host port)]
  refine ⟨⟨_, rfl⟩, ?_, ?_⟩
  · simp [List.find?_eq_none]
  · intro r
    simp [List.find?_eq_some]

/-! ## The default selection hook -/

/-- C6. On a server that still has the selection hook installed by `NewServer`, a call of
the hook returns, for every request and every iteration order of the map, a list without
repetition whose members are exactly the names registered in `Backends` at the time of the
call, so its length is the number of registered backends (zero when none is registered);
a name registered by a later `AddBackend` or `AddMasterBackend` is in the list returned
afterwards. -/
theorem default_selection_lists_registered (server : Server) (host : String) (port : Int)
    (hkept : server.onSelectBackendHandler = (NewServer host port).onSelectBackendHandler)
    (order : RangeOrder) (req : Request) :
    (∃ names, server.selectBackends order req = .ok names ∧ names.Nodup ∧
      (∀ name, name ∈ names ↔ (mapIndex server.Backends name).isSome = true) ∧
      names.length = mapLen server.Backends) ∧
    (∀ name bhost bport next,
      (server.AddMasterBackend name bhost bport = .ok next ∨
        server.AddBackend name bhost bport = .ok next) →
      ∀ laterOrder laterReq, ∃ later,
        next.selectBackends laterOrder laterReq = .ok later ∧ name ∈ later) := by
  have hdef := hkept.trans (newServer_onSelectBackendHandler host port)
  refine ⟨⟨_, selectBackends_of_default server hdef order req,
    defaultOnSelectBackend_spec server.Backends order req⟩, ?_⟩
  intro name bhost bport next hreg laterOrder laterReq
  rcases hreg with h | h
  · exact setBackend_selected server next name _ hdef h laterOrder laterReq
  · exact setBackend_selected server next name _ hdef h laterOrder laterReq

/-- The hook of a new server returns the empty list; after the two registrations of the
tests it returns both names, here with the map visited in reverse order. -/
theorem default_selection_lists_registered_witness :
    sampleServer.onSelectBackendHandler
      = (NewServer "0.0.0.0" 8000).onSelectBackendHandler ∧
    (NewServer "0.0.0.0" 8000).selectBackends RangeOrder.stored sampleRequest = .ok [] ∧
    sampleServer.selectBackends RangeOrder.reversed sampleRequest
      = .ok ["production", "testing"] ∧
    ∃ names, sampleServer.selectBackends RangeOrder.reversed sampleRequest = .ok names ∧
      names.Nodup ∧
      (∀ name, name ∈ names ↔ (mapIndex sampleServer.Backends name).isSome = true) ∧
      names.length = mapLen sampleServer.Backends :=
  ⟨rfl, rfl, rfl,
    (default_selection_lists_registered sampleServer "0.0.0.0" 8000 rfl RangeOrder.reversed
      sampleRequest).1⟩

/-! ## Registration and configuration -/

/-- C7. On a server whose backend map is allocated (as it is on a new server and after
every sequence of method calls on one, `newServer_callAll_allocated`),
`AddMasterBackend(name, host, port)` succeeds and leaves under `name` exactly the backend
with `IsMaster` true and the given name, host and port, and `AddBackend` the same with
`IsMaster` false, whatever was stored under `name` before; the entry of every other name
is as before, and the number of registered backends is one more if `name` was absent and
the same if it was present. -/
theorem registration_inserts_or_overwrites (server : Server) (m : BackendMap)
    (hmap : server.Backends = some m) (name host : String) (port : Int) :
    (∃ next, server.AddMasterBackend name host port = .ok next ∧
      mapIndex next.Backends name
        = some { IsMaster := true, Name := name, Host := host, Port := port } ∧
      (∀ other, other ≠ name →
        mapIndex next.Backends other = mapIndex server.Backends other) ∧
      mapLen next.Backends
        = (if (mapIndex server.Backends name).isSome = true then mapLen server.Backends
           else mapLen server.Backends + 1)) ∧
    (∃ next, server.AddBackend name host port = .ok next ∧
      mapIndex next.Backends name
        = some { IsMaster := false, Name := name, Host := host, Port := port } ∧
      (∀ other, other ≠ name →
        mapIndex next.Backends other = mapIndex server.Backends other) ∧
      mapLen next.Backends
        = (if (mapIndex server.Backends name).isSome = true then mapLen server.Backends
           else mapLen server.Backends + 1)) := by
  constructor
  · obtain ⟨next, h1, _, h2, h3, h4, _⟩ := setBackend_spec server m hmap name
      { IsMaster := true, Name := name, Host := host, Port := port }
    exact ⟨next, h1, h2, h3, h4⟩
  · obtain ⟨next, h1, _, h2, h3, h4, _⟩ := setBackend_spec server m hmap name
      { IsMaster := false, Name := name, Host := host, Port := port }
    exact ⟨next, h1, h2, h3, h4⟩

/-- Overwriting the shadow entry of the tests by a master keeps two entries; registering
a new name gives three. -/
theorem registration_inserts_or_overwrites_witness :
    sampleServer.Backends = some sampleBackends ∧
    (∃ next, sampleServer.AddMasterBackend "testing" "127.0.0.1" 9090 = .ok next ∧
      mapIndex next.Backends "testing"
        = some { IsMaster := true, Name := "testing", Host := "127.0.0.1", Port := 9090 } ∧
      mapIndex next.Backends "production" = some productionBackend ∧
      mapLen next.Backends = 2) ∧
    (∃ next, sampleServer.AddBackend "staging" "127.0.0.1" 9091 = .ok next ∧
      mapIndex next.Backends "staging"
        = some { IsMaster := false, Name := "staging", Host := "127.0.0.1", Port := 9091 } ∧
      mapIndex next.Backends "production" = some productionBackend ∧
      mapLen next.Backends = 3) :=
  ⟨rfl,
    match (registration_inserts_or_overwrites sampleServer sampleBackends rfl
      "testing" "127.0.0.1" 9090).1 with
    | ⟨next, h1, h2, h3, h4⟩ =>
      ⟨next, h1, h2, (h3 "production" (by decide)).trans rfl, h4.trans rfl⟩,
    match (registration_inserts_or_overwrites sampleServer sampleBackends rfl
      "staging" "127.0.0.1" 9091).2 with
    | ⟨next, h1, h2, h3, h4⟩ =>
      ⟨next, h1, h2, (h3 "production" (by decide)).trans rfl, h4.trans rfl⟩⟩

/-- C8. Each of the five setters stores its argument in its field, whatever the field held,
and leaves host, port, registered backends and the other four settings as they were. In a
sequence of setter calls the field holds the argument of the last call of its setter,
host, port and backends are those of the start, and after `OnResponse` with a custom hook
a call of the response hook is a call of the custom hook. -/
theorem setters_last_write_wins (server : Server) :
    (∀ v, (server.OnSelectBackend v).onSelectBackendHandler = v ∧
      (server.OnSelectBackend v).sameRegistry server ∧
      (server.OnSelectBackend v).onMungeHeaderHandler = server.onMungeHeaderHandler ∧
      (server.OnSelectBackend v).onBackendFinishedHandler = server.onBackendFinishedHandler ∧
      (server.OnSelectBackend v).onResponseHandler = server.onResponseHandler ∧
      (server.OnSelectBackend v).waitForAllBackends = server.waitForAllBackends) ∧
    (∀ v, (server.OnMungeHeader v).onMungeHeaderHandler = v ∧
      (server.OnMungeHeader v).sameRegistry server ∧
      (server.OnMungeHeader v).onSelectBackendHandler = server.onSelectBackendHandler ∧
      (server.OnMungeHeader v).onBackendFinishedHandler = server.onBackendFinishedHandler ∧
      (server.OnMungeHeader v).onResponseHandler = server.onResponseHandler ∧
      (server.OnMungeHeader v).waitForAllBackends = server.waitForAllBackends) ∧
    (∀ v, (server.OnBackendFinished v).onBackendFinishedHandler = v ∧
      (server.OnBackendFinished v).sameRegistry server ∧
      (server.OnBackendFinished v).onSelectBackendHandler = server.onSelectBackendHandler ∧
      (server.OnBackendFinished v).onMungeHeaderHandler = server.onMungeHeaderHandler ∧
      (server.OnBackendFinished v).onResponseHandler = server.onResponseHandler ∧
      (server.OnBackendFinished v).waitForAllBackends = server.waitForAllBackends) ∧
    (∀ v, (server.OnResponse v).onResponseHandler = v ∧
      (server.OnResponse v).sameRegistry server ∧
      (server.OnResponse v).onSelectBackendHandler = server.onSelectBackendHandler ∧
      (server.OnResponse v).onMungeHeaderHandler = server.onMungeHeaderHandler ∧
      (server.OnResponse v).onBackendFinishedHandler = server.onBackendFinishedHandler ∧
      (server.OnResponse v).waitForAllBackends = server.waitForAllBackends) ∧
    (∀ v, (server.WaitForAllBackends v).waitForAllBackends = v ∧
      (server.WaitForAllBackends v).sameRegistry server ∧
      (server.WaitForAllBackends v).onSelectBackendHandler = server.onSelectBackendHandler ∧
      (server.WaitForAllBackends v).onMungeHeaderHandler = server.onMungeHeaderHandler ∧
      (server.WaitForAllBackends v).onBackendFinishedHandler
        = server.onBackendFinishedHandler ∧
      (server.WaitForAllBackends v).onResponseHandler = server.onResponseHandler) ∧
    (∀ calls, (server.configureAll calls).sameRegistry server) ∧
    (∀ before v after, (∀ c ∈ after, ∀ w, c ≠ ConfigCall.onSelectBackend w) →
      (server.configureAll (before ++ .onSelectBackend v :: after)).onSelectBackendHandler
        = v) ∧
    (∀ before v after, (∀ c ∈ after, ∀ w, c ≠ ConfigCall.onMungeHeader w) →
      (server.configureAll (before ++ .onMungeHeader v :: after)).onMungeHeaderHandler = v) ∧
    (∀ before v after, (∀ c ∈ after, ∀ w, c ≠ ConfigCall.onBackendFinished w) →
      (server.configureAll
        (before ++ .onBackendFinished v :: after)).onBackendFinishedHandler = v) ∧
    (∀ before v after, (∀ c ∈ after, ∀ w, c ≠ ConfigCall.onResponse w) →
      (server.configureAll (before ++ .onResponse v :: after)).onResponseHandler = v) ∧
    (∀ before v after, (∀ c ∈ after, ∀ w, c ≠ ConfigCall.waitForAllBackends w) →
      (server.configureAll
        (before ++ .waitForAllBackends v :: after)).waitForAllBackends = v) ∧
    (∀ custom responses,
      (server.OnResponse (some custom)).pickResponse responses = custom responses) := by
  refine ⟨fun _ => ⟨rfl, ⟨rfl, rfl, rfl⟩, rfl, rfl, rfl, rfl⟩,
    fun _ => ⟨rfl, ⟨rfl, rfl, rfl⟩, rfl, rfl, rfl, rfl⟩,
    fun _ => ⟨rfl, ⟨rfl, rfl, rfl⟩, rfl, rfl, rfl, rfl⟩,
    fun _ => ⟨rfl, ⟨rfl, rfl, rfl⟩, rfl, rfl, rfl, rfl⟩,
    fun _ => ⟨rfl, ⟨rfl, rfl, rfl⟩, rfl, rfl, rfl, rfl⟩, ?_, ?_, ?_, ?_, ?_, ?_,
    fun _ _ => rfl⟩
  · intro calls
    exact ⟨configureAll_preserves Server.Host calls
        (fun c _ s => (configure_sameRegistry c s).1) server,
      configureAll_preserves Server.Port calls
        (fun c _ s => (configure_sameRegistry c s).2.1) server,
      configureAll_preserves Server.Backends calls
        (fun c _ s => (configure_sameRegistry c s).2.2) server⟩
  · intro before v after hafter
    refine configureAll_last (fun s => s.onSelectBackendHandler = v) before after
      (.onSelectBackend v) (fun _ => rfl) ?_ server
    intro d hd s hs
    cases d with
    | onSelectBackend w => exact absurd rfl (hafter _ hd w)
    | _ => exact hs
  · intro before v after hafter
    refine configureAll_last (fun s => s.onMungeHeaderHandler = v) before after
      (.onMungeHeader v) (fun _ => rfl) ?_ server
    intro d hd s hs
    cases d with
    | onMungeHeader w => exact absurd rfl (hafter _ hd w)
    | _ => exact hs
  · intro before v after hafter
    refine configureAll_last (fun s => s.onBackendFinishedHandler = v) before after
      (.onBackendFinished v) (fun _ => rfl) ?_ server
    intro d hd s hs
    cases d with
    | onBackendFinished w => exact absurd rfl (hafter _ hd w)
    | _ => exact hs
  · intro before v after hafter
    refine configureAll_last (fun s => s.onResponseHandler = v) before after
      (.onResponse v) (fun _ => rfl) ?_ server
    intro d hd s hs
    cases d with
    | onResponse w => exact absurd rfl (hafter _ hd w)
    | _ => exact hs
  · intro before v after hafter
    refine configureAll_last (fun s => s.waitForAllBackends = v) before after
      (.waitForAllBackends v) (fun _ => rfl) ?_ server
    intro d hd s hs
    cases d with
    | waitForAllBackends w => exact absurd rfl (hafter _ hd w)
    | _ => exact hs

/-- C9. Registration does not keep the number of masters at one. Started on a new server,
no sequence of registration calls panics. After `AddMasterBackend("production", ...)` one
registered backend has `IsMaster` set; after a further `AddMasterBackend` under another
name two registered backends have it; and after `AddMasterBackend` followed by
`AddBackend` under the same name no registered backend has it. -/
theorem single_master_not_enforced (host : String) (port : Int) :
    (∀ calls, ∃ final n, (NewServer host port).registerAll calls = .ok final ∧
      final.Backends = some n) ∧
    (∃ one,
      (NewServer host port).registerAll [.addMasterBackend "production" "localhost" 8080]
        = .ok one ∧
      masterCount one.Backends = 1) ∧
    (∃ two,
      (NewServer host port).registerAll
        [.addMasterBackend "production" "localhost" 8080,
         .addMasterBackend "testing" "localhost" 8081] = .ok two ∧
      masterCount two.Backends = 2 ∧
      ∃ first second, mapIndex two.Backends "production" = some first ∧
        mapIndex two.Backends "testing" = some second ∧
        first.IsMaster = true ∧ second.IsMaster = true) ∧
    (∃ zero,
      (NewServer host port).registerAll
        [.addMasterBackend "production" "localhost" 8080,
         .addBackend "production" "localhost" 8080] = .ok zero ∧
      masterCount zero.Backends = 0 ∧
      ∀ name backend, mapIndex zero.Backends name = some backend →
        backend.IsMaster = false) := by
  refine ⟨fun calls => registerAll_ok calls (NewServer host port) ∅ rfl,
    ⟨_, rfl, rfl⟩, ⟨_, rfl, rfl, _, _, rfl, rfl, rfl, rfl⟩, ⟨_, rfl, rfl, ?_⟩⟩
  intro name backend h
  by_cases hname : name = "production"
  · subst hname
    have hb : backend
        = { IsMaster := false, Name := "production", Host := "localhost", Port := 8080 } :=
      Option.some.inj (h.symm.trans rfl)
    rw [hb]
  · have hnone : mapIndex (some (AList.insert "production"
        ({ IsMaster := false, Name := "production", Host := "localhost", Port := 8080 }
          : Backend)
        (AList.insert "production" productionBackend ∅))) name = none := by
      show AList.lookup name _ = none
      rw [AList.lookup_insert_ne hname, AList.lookup_insert_ne hname, AList.lookup_empty]
    exact absurd (h.symm.trans hnone) (by simp)

/-- C10. `NewServer(host, port)` returns a server with the given host and port, an allocated
map without entries, waiting mode off, no header-munging hook and no completion hook, the
selection hook that lists all registered backends and the response hook that picks the
first response of a master. -/
theorem newServer_initial_configuration (host : String) (port : Int) :
    (NewServer host port).Host = host ∧
    (NewServer host port).Port = port ∧
    (NewServer host port).Backends = some ∅ ∧
    mapLen (NewServer host port).Backends = 0 ∧
    (NewServer host port).waitForAllBackends = false ∧
    (NewServer host port).onMungeHeaderHandler = none ∧
    (NewServer host port).onBackendFinishedHandler = none ∧
    (NewServer host port).onSelectBackendHandler = some defaultOnSelectBackend ∧
    (NewServer host port).onResponseHandler = some defaultOnResponse ∧
    (∀ backends order req,
      (defaultOnSelectBackend backends order req).Nodup ∧
      (∀ name, name ∈ defaultOnSelectBackend backends order req ↔
        (mapIndex backends name).isSome = true) ∧
      (defaultOnSelectBackend backends order req).length = mapLen backends) ∧
    (∀ responses : List Response,
      defaultOnResponse (responses.map some) = .ok (responses.find? isMasterResponse)) :=
  ⟨rfl, rfl, rfl, rfl, rfl, rfl, rfl, rfl, rfl, defaultOnSelectBackend_spec,
    defaultOnResponse_eq_find⟩

/-! ## Outbound requests and waiting mode -/

/-- C4. Outbound request construction (on the handler as the specification describes it):
for an inbound request with header set `header`, the requests built for the selected names
are, in order, one per selected name that is registered; each has the method, path and
body of the inbound request and a header pointer of its own, different from the inbound
pointer and from every other request's, whose cell holds the result of the munge hook for
that name on a copy of `header`; the inbound header set itself is still `header`. -/
theorem outbound_request_construction (server : Server) (inbound : InboundRequest)
    (store : HeaderStore) (header : Header) (names : List String)
    (hs : store[inbound.Header]? = some header) :
    (server.replicate inbound store names).2.map OutboundRequest.Name
      = names.filter (fun name => (mapIndex server.Backends name).isSome) ∧
    (∀ out ∈ (server.replicate inbound store names).2,
      mapIndex server.Backends out.Name = some out.Backend ∧
      out.Method = inbound.Method ∧ out.Path = inbound.Path ∧ out.Body = inbound.Body ∧
      out.Header ≠ inbound.Header ∧
      (server.replicate inbound store names).1[out.Header]?
        = some (server.mungedHeader out.Name header)) ∧
    ((server.replicate inbound store names).2.map OutboundRequest.Header).Nodup ∧
    (server.replicate inbound store names).1[inbound.Header]? = some header := by
  obtain ⟨_, h2, h3, h4, h5⟩ := replicate_spec server inbound header names store hs
  have hlt : inbound.Header < store.length := (List.getElem?_eq_some_iff.mp hs).1
  refine ⟨h3, ?_, h5, ?_⟩
  · intro out hout
    obtain ⟨g1, g2, g3, g4, g5, g6⟩ := h4 out hout
    exact ⟨g1, g2, g3, g4, by omega, g6⟩
  · rw [h2 _ hlt, hs]

/-- The request of `TestRequestBody_HappyFlow` with the hook that adds `Delta-Backend`:
each of the two backends is sent its own name, an unregistered name is sent nothing, and
the inbound header set has no `Delta-Backend`. -/
theorem outbound_request_construction_witness :
    sampleStore[sampleInbound.Header]? = some sampleHeader ∧
    taggingServer.replicate sampleInbound sampleStore ["production", "staging", "testing"]
      = ([sampleHeader,
          [("Delta-Test-Enabled", ["1"]), ("Delta-Backend", ["production"])],
          [("Delta-Test-Enabled", ["1"]), ("Delta-Backend", ["testing"])]],
         [{ Name := "production", Backend := productionBackend, Method := "POST", Path := "/",
            Header := 1, Body := [100, 101] },
          { Name := "testing", Backend := testingBackend, Method := "POST", Path := "/",
            Header := 2, Body := [100, 101] }]) ∧
    ((taggingServer.replicate sampleInbound sampleStore
        ["production", "staging", "testing"]).2.map OutboundRequest.Header).Nodup ∧
    (taggingServer.replicate sampleInbound sampleStore
        ["production", "staging", "testing"]).1[sampleInbound.Header]? = some sampleHeader ∧
    Header.Get (tagBackend "production" sampleHeader) "Delta-Backend" = "production" ∧
    Header.Get (tagBackend "testing" sampleHeader) "Delta-Backend" = "testing" ∧
    Header.Get sampleHeader "Delta-Backend" = "" :=
  ⟨rfl, rfl,
    (outbound_request_construction taggingServer sampleInbound sampleStore sampleHeader
      ["production", "staging", "testing"] rfl).2.2.1,
    (outbound_request_construction taggingServer sampleInbound sampleStore sampleHeader
      ["production", "staging", "testing"] rfl).2.2.2,
    rfl, rfl, rfl⟩

/-- C5. Waiting mode (on the aggregation as the specification describes it): with
`waitForAllBackends` set, while a selected backend is still outstanding no client-facing
response has been chosen, and when the last one completes the response hook is invoked
once with the responses of all selected backends and its result is the client-facing
response. With the hook that returns the response whose backend is named "testing", that
response is the one chosen, wherever in the order of completion it stands. -/
theorem waiting_mode_decides_on_all (server : Server)
    (hwait : server.waitForAllBackends = true) (early : List Response) (last : Response) :
    (∀ seen outstanding, early = seen ++ outstanding →
      server.aggregate (early.length + 1) Aggregation.start seen
        = .ok { completed := seen, client := none }) ∧
    server.aggregate (early.length + 1) Aggregation.start (early ++ [last])
      = (match server.pickResponse ((early ++ [last]).map some) with
        | .error fault => .error fault
        | .ok choice => .ok { completed := early ++ [last], client := choice }) ∧
    (server.onResponseHandler = some testingOnResponse →
      ∀ before testing after backend, early ++ [last] = before ++ testing :: after →
        testing.Backend = some backend → backend.Name = "testing" →
        (∀ r ∈ before, ∃ b, r.Backend = some b ∧ b.Name ≠ "testing") →
        server.aggregate (early.length + 1) Aggregation.start (early ++ [last])
          = .ok { completed := early ++ [last], client := some testing }) := by
  have hpending : ∀ seen outstanding, early = seen ++ outstanding →
      server.aggregate (early.length + 1) Aggregation.start seen
        = .ok { completed := seen, client := none } := by
    intro seen outstanding hsplit
    have h := aggregate_waiting server hwait (early.length + 1) [] seen
      (by rw [hsplit]; simp; omega)
    simpa [Aggregation.start] using h
  have hall : server.aggregate (early.length + 1) Aggregation.start (early ++ [last])
      = (match server.pickResponse ((early ++ [last]).map some) with
        | .error fault => .error fault
        | .ok choice => .ok { completed := early ++ [last], client := choice }) := by
    rw [aggregate_append server _ early [last] _ _ (hpending early [] (by simp))]
    simp only [Server.aggregate, receive_last]
    cases server.pickResponse ((early ++ [last]).map some) <;> rfl
  refine ⟨hpending, hall, ?_⟩
  intro hhook before testing after backend hsplit hb hname hbefore
  rw [hall, hsplit]
  have hpick : server.pickResponse ((before ++ testing :: after).map some)
      = .ok (some testing) := by
    unfold Server.pickResponse
    rw [hhook]
    exact testingOnResponse_first before after testing backend hb hname hbefore
  rw [hpick]

/-- The run of `TestRequestBody_WaitForAllBackends` with the master completing first: after
the master's response nothing has been chosen, after both the client-facing response is the
one of "testing", with its header and body. -/
theorem waiting_mode_decides_on_all_witness :
    waitingServer.waitForAllBackends = true ∧
    waitingServer.aggregate 2 Aggregation.start [productionResponse]
      = .ok { completed := [productionResponse], client := none } ∧
    waitingServer.aggregate 2 Aggregation.start [productionResponse, testingResponse]
      = .ok { completed := [productionResponse, testingResponse],
              client := some testingResponse } ∧
    testingResponse.HttpResponse
      = some { StatusCode := 200, Header := [("Delta-Backend", ["testing"])] } ∧
    testingResponse.Data = [100, 101] :=
  ⟨rfl,
    (waiting_mode_decides_on_all waitingServer rfl [productionResponse] testingResponse).1
      [productionResponse] [] rfl,
    (waiting_mode_decides_on_all waitingServer rfl [productionResponse] testingResponse).2.2
      rfl [productionResponse] testingResponse [] testingBackend rfl rfl rfl
      (fun r hr => ⟨productionBackend,
        by rw [List.mem_singleton.mp hr]; exact ⟨rfl, by decide⟩⟩),
    rfl, rfl⟩

end Delta
